import Mathlib

/-!
Shallow embedding of the kroma-downloader core (format resolver, filename
resolution, metadata-fetch error classification, streaming download engine)
together with proofs of the spec claims about it.

Sources embedded:
- `src/App.tsx`: `parseHeight`, `findRecommendedFormat`, `pickBestAudioFormat`,
  `buildFormatString`, `formatFilename`.
- `src/services/mockYtDlpService.ts`: `fetchVideoInfoReal` (error
  classification), `downloadVideoReal` (streaming read loop and progress
  samples), `downloadVideoMock`.
-/

namespace Kroma

/-- `FormatType` from `src/types.ts`. -/
inductive FormatType where
  | video
  | audio
deriving DecidableEq, Repr

/-- `VideoFormat` from `src/types.ts` (plus the `tbr` field which the fetch
normalization in `mockYtDlpService.ts` populates and `App.tsx` reads).
Optional TS fields become `Option`; `resolution` is optional because
`App.tsx` accesses it as `format.resolution?.`. Sizes are byte counts
(`Nat`); `tbr` is a bitrate which may be fractional, so `ℚ`. -/
structure VideoFormat where
  format_id : String
  ext : String := ""
  resolution : Option String := none
  filesize : Option Nat := none
  filesize_approx : Option Nat := none
  note : Option String := none
  type : FormatType
  vcodec : Option String := none
  acodec : Option String := none
  tbr : Option ℚ := none
deriving DecidableEq, Repr

/-- JS truthiness test `f.acodec && f.acodec !== 'none'` used throughout
`App.tsx`: the codec is present, non-empty and not the literal `'none'`. -/
def hasUsableAcodec (f : VideoFormat) : Bool :=
  match f.acodec with
  | some a => a != "" && a != "none"
  | none => false

/-- `(!f.vcodec || f.vcodec === 'none')` from `pickBestAudioFormat` in
`App.tsx`: video codec absent, empty or the literal `'none'`. -/
def noUsableVcodec (f : VideoFormat) : Bool :=
  match f.vcodec with
  | some v => v == "" || v == "none"
  | none => true

/-- Value of a digit string, as computed by `parseInt(s, 10)` on a string of
decimal digits. -/
def digitsToNat (ds : List Char) : Nat :=
  ds.foldl (fun a c => a * 10 + (c.toNat - '0'.toNat)) 0

/-- Attempt of the regex `(\d{3,4})p` at the current position: greedily take
four digits followed by `p`, backtracking to three digits followed by `p`. -/
def pMatchHere (l : List Char) : Option Nat :=
  let run := l.takeWhile Char.isDigit
  if 4 ≤ run.length && l.get? 4 == some 'p' then some (digitsToNat (run.take 4))
  else if 3 ≤ run.length && l.get? 3 == some 'p' then some (digitsToNat (run.take 3))
  else none

/-- Leftmost match of `(\d{3,4})p`, as `res.match(/(\d{3,4})p/)`. -/
def scanPMatch : List Char → Option Nat
  | [] => none
  | c :: rest => (pMatchHere (c :: rest)).orElse (fun _ => scanPMatch rest)

/-- Attempt of the regex `x(\d{3,4})` at the current position: an `x`
followed by (greedily) three or four digits. -/
def xMatchHere (l : List Char) : Option Nat :=
  match l with
  | 'x' :: rest =>
    let run := rest.takeWhile Char.isDigit
    if 3 ≤ run.length then some (digitsToNat (run.take 4)) else none
  | _ => none

/-- Leftmost match of `x(\d{3,4})`, as `res.match(/x(\d{3,4})/)`. -/
def scanXMatch : List Char → Option Nat
  | [] => none
  | c :: rest => (xMatchHere (c :: rest)).orElse (fun _ => scanXMatch rest)

/-- `parseHeight` from `src/App.tsx`: lowercase the resolution label (empty
when absent), try `NNNp` then `xNNN`, else 0. -/
def parseHeight (format : VideoFormat) : Nat :=
  let res := (format.resolution.getD "").toList.map Char.toLower
  match scanPMatch res with
  | some n => n
  | none =>
    match scanXMatch res with
    | some n => n
    | none => 0

/-- `a.filesize ?? a.filesize_approx ?? 0` from `App.tsx`. -/
def sizeKey (f : VideoFormat) : Nat :=
  f.filesize.getD (f.filesize_approx.getD 0)

/-- The audio score `a.acodec && a.acodec !== 'none' ? 1 : 0` used by the
video comparator in `findRecommendedFormat`. -/
def audioScore (f : VideoFormat) : Nat :=
  if hasUsableAcodec f then 1 else 0

/-- The video comparator of `findRecommendedFormat` (descending): `f`
strictly precedes `g` when `f` has greater parsed height, or equal height and
greater audio score, or equal height and audio score and greater size key. -/
def videoBefore (f g : VideoFormat) : Bool :=
  parseHeight g < parseHeight f ||
    (parseHeight g == parseHeight f &&
      (audioScore g < audioScore f ||
        (audioScore g == audioScore f && sizeKey g < sizeKey f)))

/-- Head of the stable descending sort `[...videos].sort(cmp)[0]`: since JS
`Array.prototype.sort` is stable and the comparator is consistent, the first
element of the sorted array is the earliest element that no other element
strictly precedes; computed here as a left fold that replaces the
accumulator only on strict improvement. -/
def sortFirst (h : VideoFormat) (t : List VideoFormat) : VideoFormat :=
  t.foldl (fun acc f => if videoBefore f acc then f else acc) h

/-- Comparator of the audio-only fallback sort in `findRecommendedFormat`
(size descending only). -/
def audioBefore (f g : VideoFormat) : Bool :=
  sizeKey g < sizeKey f

/-- Head of the stable audio fallback sort. -/
def audioSortFirst (h : VideoFormat) (t : List VideoFormat) : VideoFormat :=
  t.foldl (fun acc f => if audioBefore f acc then f else acc) h

/-- `findRecommendedFormat` from `src/App.tsx`. Note the video branch
returns `sorted[0]?.format_id || null`, so an empty (falsy) id becomes
`null`; the audio fallback and the final fallback return the id directly. -/
def findRecommendedFormat (formats : List VideoFormat) : Option String :=
  match formats with
  | [] => none
  | f0 :: _ =>
    let videos := formats.filter (fun f => f.type == FormatType.video)
    match videos with
    | v :: vs =>
      let best := sortFirst v vs
      if best.format_id == "" then none else some best.format_id
    | [] =>
      let audios := formats.filter (fun f => f.type == FormatType.audio)
      match audios with
      | a :: rest => some (audioSortFirst a rest).format_id
      | [] => some f0.format_id

/-- `a.tbr ?? 0` from `pickBestAudioFormat`. -/
def tbrKey (f : VideoFormat) : ℚ :=
  f.tbr.getD 0

/-- Comparator of the sort in `pickBestAudioFormat` (size descending, then
bitrate descending). -/
def bestAudioBefore (f g : VideoFormat) : Bool :=
  sizeKey g < sizeKey f || (sizeKey g == sizeKey f && tbrKey g < tbrKey f)

/-- `pickBestAudioFormat` from `src/App.tsx`: filter to audio-kind or
video-codec-free formats with a usable audio codec, stable-sort by size then
bitrate descending, take the first. -/
def pickBestAudioFormat (formats : List VideoFormat) : Option VideoFormat :=
  let cands :=
    (formats.filter (fun f => f.type == FormatType.audio || noUsableVcodec f)).filter
      hasUsableAcodec
  match cands with
  | [] => none
  | c :: cs => some (cs.foldl (fun acc f => if bestAudioBefore f acc then f else acc) c)

/-- `buildFormatString` from `src/App.tsx`. -/
def buildFormatString (formats : List VideoFormat) (selectedFormatId : String)
    (convertToMp3 : Bool) : String :=
  match formats.find? (fun f => f.format_id == selectedFormatId) with
  | none => selectedFormatId
  | some selected =>
    if convertToMp3 then
      if selected.type == FormatType.audio && hasUsableAcodec selected then
        selected.format_id
      else
        match pickBestAudioFormat formats with
        | some bestAudio => bestAudio.format_id
        | none => "bestaudio"
    else if hasUsableAcodec selected then selected.format_id
    else
      match pickBestAudioFormat formats with
      | some bestAudio => selected.format_id ++ "+" ++ bestAudio.format_id
      | none => selected.format_id ++ "+bestaudio"

/-! ## Filename resolution (`formatFilename` in `src/App.tsx`) -/

/-- The token values accepted by `formatFilename` (its `info` parameter). -/
structure FileInfo where
  title : Option String := none
  uploader : Option String := none
  resolution : Option String := none
  formatId : Option String := none
  id : Option String := none

/-- `v || d` for an optional string: the value when present and non-empty,
else the default (JS falsy fallback). -/
def orDefault (v : Option String) (d : String) : String :=
  match v with
  | some s => if s == "" then d else s
  | none => d

/-- Case-insensitive match of the (lowercase) pattern at the head of the
text, as the `i` flag of the replacement regexes in `formatFilename`. -/
def ciMatchAt : List Char → List Char → Bool
  | [], _ => true
  | _ :: _, [] => false
  | p :: ps, c :: cs => p == c.toLower && ciMatchAt ps cs

/-- Worker for `replaceAllCI`, structurally recursive on a fuel that bounds
the text length (on a match the scan skips the matched pattern, which only
shortens the text, so one fuel unit per step suffices). -/
def replaceAllCIAux (p : Char) (ps val : List Char) : Nat → List Char → List Char
  | 0, _ => []
  | _ + 1, [] => []
  | fuel + 1, c :: rest =>
    if ciMatchAt (p :: ps) (c :: rest) then
      val ++ replaceAllCIAux p ps val fuel (rest.drop ps.length)
    else
      c :: replaceAllCIAux p ps val fuel rest

/-- `name.replace(new RegExp(pat, 'gi'), val)` for a literal non-empty
pattern `p :: ps`: replace every case-insensitive occurrence, scanning left
to right without rescanning the inserted value. (The `$`-escape semantics of
JS replacement strings are elided; no claim depends on them.) -/
def replaceAllCI (p : Char) (ps : List Char) (val : List Char) (l : List Char) : List Char :=
  replaceAllCIAux p ps val l.length l

/-- The sequential token substitution loop of `formatFilename`: each
`(key, value)` pair replaces all case-insensitive occurrences of
`{key}`, in order. -/
def applyReplacements (reps : List (String × String)) (s : List Char) : List Char :=
  reps.foldl (fun acc kv => replaceAllCI '{' (kv.1.toList ++ ['}']) kv.2.toList acc) s

/-- Membership in the character class `[\\/*?:"<>|]` stripped by
`formatFilename`. -/
def isIllegalChar (c : Char) : Bool :=
  ['\\', '/', '*', '?', ':', '"', '<', '>', '|'].contains c

/-- Membership in `[\u0000-\u001F]` (control characters). -/
def isCtrlChar (c : Char) : Bool :=
  c.toNat ≤ 0x1F

/-- The JS `\s` character class (WhiteSpace and LineTerminator code points),
used by `.replace(/\s+/g, ' ')` and `.trim()`. -/
def isJsSpace (c : Char) : Bool :=
  [0x9, 0xA, 0xB, 0xC, 0xD, 0x20, 0xA0, 0x1680, 0x2028, 0x2029,
    0x202F, 0x205F, 0x3000, 0xFEFF].contains c.toNat ||
    (0x2000 ≤ c.toNat && c.toNat ≤ 0x200A)

/-- `.replace(/\s+/g, ' ')`: collapse each whitespace run to one space
(a whitespace character followed by more whitespace is absorbed into the
run; the run's last character becomes the single space). -/
def collapseWs : List Char → List Char
  | [] => []
  | [c] => if isJsSpace c then [' '] else [c]
  | c :: d :: rest =>
    if isJsSpace c then
      if isJsSpace d then collapseWs (d :: rest)
      else ' ' :: collapseWs (d :: rest)
    else c :: collapseWs (d :: rest)

/-- `.trim()`: strip whitespace from both ends. -/
def trimWs (l : List Char) : List Char :=
  ((l.dropWhile isJsSpace).reverse.dropWhile isJsSpace).reverse

/-- The sanitization pipeline of `formatFilename`: strip filesystem-illegal
characters, strip control characters, collapse whitespace runs, trim. -/
def sanitizeName (l : List Char) : List Char :=
  trimWs (collapseWs ((l.filter (fun c => !isIllegalChar c)).filter (fun c => !isCtrlChar c)))

/-- `ext.startsWith('.') ? ext.slice(1) : ext`. -/
def safeExtOf (ext : String) : String :=
  match ext.toList with
  | '.' :: rest => String.mk rest
  | _ => ext

/-- `String.trim` with the JS whitespace class. -/
def jsTrim (s : String) : String :=
  String.mk (trimWs s.toList)

/-- The name computed by `formatFilename` just before the extension step:
trimmed template defaulting to `{title}`, token substitution, sanitization,
and the fallback when the sanitized name is empty. -/
def preExtName (template : Option String) (info : FileInfo) (fallback : String)
    (ext : String) : String :=
  let safeExt := safeExtOf ext
  let baseTemplate :=
    match template with
    | some t => if jsTrim t == "" then "{title}" else jsTrim t
    | none => "{title}"
  let replacements : List (String × String) :=
    [("title", orDefault info.title fallback),
     ("uploader", orDefault info.uploader "uploader"),
     ("resolution", orDefault info.resolution "best"),
     ("format", orDefault info.formatId "format"),
     ("id", orDefault info.id "id"),
     ("ext", safeExt)]
  let name := String.mk (sanitizeName (applyReplacements replacements baseTemplate.toList))
  if name == "" then fallback else name

/-- `suffix.isSuffixOf l`: the ends-with test on character lists. -/
def jsEndsWith (l suffix : List Char) : Bool :=
  suffix.isSuffixOf l

/-- `formatFilename` from `src/App.tsx`. The ends-with check lowercases both
sides (`Char.toLower`, matching JS on the ASCII range); the source tests the
negation (`if (!name...endsWith(...))`) — the branches are swapped here
accordingly. -/
def formatFilename (template : Option String) (info : FileInfo) (fallback : String)
    (ext : String) : String :=
  let safeExt := safeExtOf ext
  let name := preExtName template info fallback ext
  if jsEndsWith (name.toList.map Char.toLower) (('.' :: safeExt.toList).map Char.toLower) then
    name
  else
    name ++ "." ++ safeExt

/-! ## Metadata-fetch error classification (`fetchVideoInfoReal` in
`src/services/mockYtDlpService.ts`) -/

/-- The classified failures `fetchVideoInfoReal` can surface (spec §7
taxonomy restricted to the metadata path). -/
inductive FetchError where
  | backendUnreachable
  | requestTimeout
  | authRequired
  | backendError (message : String)
deriving DecidableEq, Repr

/-- The JS exception observed by the catch block of `fetchVideoInfoReal`:
a network-level `TypeError` whose message mentions `fetch`, the
`AbortError` of the 25s timeout, or a plain `Error` (thrown for a non-2xx
response, or by the body parse / schema mapping after a 2xx response). -/
inductive JsError where
  | typeErrorFetch
  | abortError
  | plainError (message : String)
deriving DecidableEq, Repr

/-- The message thrown for a non-2xx response: the `detail` field when the
body is parseable JSON carrying one, else `Server error: {status}`. -/
def httpErrorMessage (status : Nat) (detail : Option String) : String :=
  match detail with
  | some d => d
  | none => "Server error: " ++ toString status

/-- `s.includes(pat)`: the pattern occurs as a contiguous substring. -/
def containsSub (pat : List Char) : List Char → Bool
  | [] => pat.isPrefixOf []
  | c :: rest => pat.isPrefixOf (c :: rest) || containsSub pat rest

/-- `url.toLowerCase().includes('facebook.com') || ....includes('fb.watch')`
— a substring test over the whole lowercased URL, not a hostname match. -/
def urlMentionsFacebook (url : String) : Bool :=
  containsSub "facebook.com".toList (url.toList.map Char.toLower) ||
    containsSub "fb.watch".toList (url.toList.map Char.toLower)

/-- The catch block of `fetchVideoInfoReal`: network `TypeError` becomes
`backendUnreachable`, abort becomes `requestTimeout`, and any other error is
re-branded `authRequired` when the URL mentions facebook, else rethrown
(carrying its message, which for a non-2xx response is the
`httpErrorMessage`). -/
def classifyFetchError (url : String) (e : JsError) : FetchError :=
  match e with
  | .typeErrorFetch => .backendUnreachable
  | .abortError => .requestTimeout
  | .plainError m =>
    if urlMentionsFacebook url then .authRequired else .backendError m

/-! ## Streaming download engine (`downloadVideoReal` / `downloadVideoMock`
in `src/services/mockYtDlpService.ts`) -/

/-- Resolution of `contentLength` in `downloadVideoReal`: when converting to
MP3 the size hint (`expectedFileSize || 0`) is used regardless of the
response header; otherwise the parsed `Content-Length` header when present,
else the hint, else 0 (unknown). -/
def resolveContentLength (convertToMp3 : Bool) (contentLengthHeader : Option Nat)
    (expectedFileSize : Option Nat) : Nat :=
  if convertToMp3 then expectedFileSize.getD 0
  else
    match contentLengthHeader with
    | some n => n
    | none => expectedFileSize.getD 0

/-- A progress sample: `transferred` is the engine's `receivedLength` at
emission time and `progress` its fraction in `0..100`. The `speed`/`eta`
display strings of the source's `DownloadProgress` are presentational and
elided. -/
structure Sample where
  transferred : Nat
  progress : ℝ

/-- The fraction computed inside the read loop of `downloadVideoReal`:
for a positive `contentLength`, `(received / contentLength) * 100` capped at
99.9; otherwise the indeterminate curve `log(mb + 1) * 12` capped at 95
(the `contentLength ? 98 : 95` cap of the source reduces to 95 here because
a `Nat` content length failing `0 < contentLength` is 0). -/
noncomputable def progressOf (contentLength received : Nat) : ℝ :=
  if 0 < contentLength then
    min 99.9 ((received : ℝ) / (contentLength : ℝ) * 100)
  else
    min (if contentLength ≠ 0 then 98 else 95)
      (Real.log ((received : ℝ) / (1024 * 1024) + 1) * 12)

/-- One iteration of the read loop: a chunk of `size` bytes whose read
completed at wall-clock time `now` (milliseconds, as `Date.now()`). -/
structure Chunk where
  size : Nat
  now : Nat

/-- The read loop of `downloadVideoReal`: accumulate `receivedLength` over
the chunks; when more than 150ms have passed since `lastUpdate`, emit a
sample and reset `lastUpdate`. (`Nat` truncated subtraction agrees with the
JS `now - lastUpdate > 150` test for a monotone clock.) -/
noncomputable def runLoop (contentLength : Nat) : Nat → Nat → List Chunk → List Sample
  | _, _, [] => []
  | received, lastUpdate, ch :: rest =>
    let received2 := received + ch.size
    if 150 < ch.now - lastUpdate then
      ⟨received2, progressOf contentLength received2⟩ ::
        runLoop contentLength received2 ch.now rest
    else
      runLoop contentLength received2 lastUpdate rest

/-- Total number of bytes delivered by the stream. -/
def totalSize (chunks : List Chunk) : Nat :=
  (chunks.map Chunk.size).sum

/-- The full sample sequence of one `downloadVideoReal` invocation that
reaches the end of the stream: the initial `0%` "Starting..." sample, the
loop samples, then the terminal `100%` "Done" sample. -/
noncomputable def downloadVideoRealSamples (convertToMp3 : Bool)
    (contentLengthHeader expectedFileSize : Option Nat) (startTime : Nat)
    (chunks : List Chunk) : List Sample :=
  let contentLength := resolveContentLength convertToMp3 contentLengthHeader expectedFileSize
  ⟨0, 0⟩ :: (runLoop contentLength 0 startTime chunks ++ [⟨totalSize chunks, 100⟩])

/-- The sample sequence (progress values only) of `downloadVideoMock`, run
against a given list of tick increments (`Math.random() * 2 + 1` draws):
each tick adds its increment; once the accumulator reaches 100 a single
terminal `100` is emitted and the run stops, otherwise `min(progress, 100)`
is emitted. A run whose increments are exhausted early is an unfinished
(still-pending) invocation. -/
def downloadVideoMockSamples : ℚ → List ℚ → List ℚ
  | _, [] => []
  | p, inc :: rest =>
    let p2 := p + inc
    if 100 ≤ p2 then [100]
    else min p2 100 :: downloadVideoMockSamples p2 rest

/-- Whether the mock run reaches 100 within the given increments. -/
def mockCompletes : ℚ → List ℚ → Bool
  | _, [] => false
  | p, inc :: rest => if 100 ≤ p + inc then true else mockCompletes (p + inc) rest

/-- Pointwise order between consecutive samples: non-decreasing transferred
bytes and non-decreasing fraction. -/
def sampleLE (a b : Sample) : Prop :=
  a.transferred ≤ b.transferred ∧ a.progress ≤ b.progress

/-! ## Concrete catalogs used by the witnesses -/

/-- A 1080p video-only entry (no usable audio codec), as in the spec §8
scenario catalog. -/
def exampleVideoOnly : VideoFormat :=
  { format_id := "v1080", resolution := some "1080p", type := FormatType.video,
    acodec := some "none" }

/-- An audio entry with a usable codec, as in the spec §8 scenario catalog. -/
def exampleAudio : VideoFormat :=
  { format_id := "a1", type := FormatType.audio, acodec := some "aac",
    vcodec := some "none", filesize := some 1000 }

/-- The spec §8 scenario catalog. -/
def exampleFormats : List VideoFormat := [exampleVideoOnly, exampleAudio]

/-- A 1080p video entry with audio, shaped like the mock catalog's
`hd_1080p`. -/
def exampleVideoA : VideoFormat :=
  { format_id := "hd_1080p", resolution := some "1920x1080", type := FormatType.video,
    acodec := some "mp4a", filesize := some 450000000 }

/-- A 720p video entry with audio, shaped like the mock catalog's
`hd_720p`. -/
def exampleVideoB : VideoFormat :=
  { format_id := "hd_720p", resolution := some "1280x720", type := FormatType.video,
    acodec := some "mp4a", filesize := some 120000000 }

/-- A mixed catalog with two video entries and one audio entry. -/
def exampleCatalog : List VideoFormat := [exampleVideoA, exampleVideoB, exampleAudio]

/-- A Video-kind entry whose `format_id` is the empty string. -/
def emptyIdVideo : VideoFormat :=
  { format_id := "", resolution := some "720p", type := FormatType.video }

/-- Case-insensitive occurrence of the (lowercase) pattern anywhere in the
text. -/
def containsCI (pat : List Char) : List Char → Bool
  | [] => ciMatchAt pat []
  | c :: rest => ciMatchAt pat (c :: rest) || containsCI pat rest

/-- The six token patterns recognized by `formatFilename`. -/
def tokenPats : List (List Char) :=
  ["{title}".toList, "{uploader}".toList, "{resolution}".toList,
   "{format}".toList, "{id}".toList, "{ext}".toList]

/-- A template that contains no token (case-insensitively). -/
def templateTokenFree (t : String) : Bool :=
  !(tokenPats.any (fun pat => containsCI pat t.toList))

/-- A character that is neither filesystem-illegal nor a control
character. -/
def cleanChar (c : Char) : Bool :=
  !isIllegalChar c && !isCtrlChar c

/-- A string all of whose characters are clean. -/
def cleanStr (s : String) : Bool :=
  s.toList.all cleanChar

/-! ## Helper lemmas -/

/-- The left fold that keeps the better of accumulator and element returns
an element of `c :: cs`. -/
theorem pickFold_mem {α : Type _} (f : α → α → Bool) :
    ∀ (cs : List α) (c : α),
      cs.foldl (fun acc x => if f x acc then x else acc) c ∈ c :: cs := by
  intro cs
  induction cs with
  | nil => intro c; simp
  | cons x xs ih =>
    intro c
    simp only [List.foldl_cons]
    by_cases hx : f x c
    · simp only [hx, if_pos]
      have h := ih x
      simp only [List.mem_cons] at h ⊢
      tauto
    · simp only [hx, if_neg, Bool.not_eq_true]
      have h := ih c
      simp only [List.mem_cons] at h ⊢
      tauto

/-- For a strict-order comparator (irreflexive, transitive, with transitive
complement), no element of `c :: cs` strictly precedes the fold result: the
result is maximal, and stability is reflected by keeping the accumulator on
ties. -/
theorem pickFold_max {α : Type _} (f : α → α → Bool)
    (hirr : ∀ a, f a a = false)
    (htrans : ∀ a b c, f a b = true → f b c = true → f a c = true)
    (hneg : ∀ a b c, f a b = false → f b c = false → f a c = false) :
    ∀ (cs : List α) (c : α), ∀ x ∈ c :: cs,
      f x (cs.foldl (fun acc y => if f y acc then y else acc) c) = false := by
  intro cs
  induction cs with
  | nil =>
    intro c x hx
    simp only [List.mem_cons, List.not_mem_nil, or_false] at hx
    subst hx
    simpa using hirr x
  | cons y ys ih =>
    intro c x hx
    simp only [List.foldl_cons]
    by_cases hy : f y c
    · simp only [hy, if_pos]
      rcases List.mem_cons.mp hx with hxc | hx2
      · have hcy : f c y = false := by
          by_contra hcon
          have hcy2 : f c y = true := by
            cases h2 : f c y
            · exact absurd h2 hcon
            · rfl
          have := htrans y c y hy hcy2
          rw [hirr y] at this
          exact Bool.false_ne_true this
        have hyR := ih y y (List.mem_cons_self y ys)
        rw [hxc]
        exact hneg c y _ hcy hyR
      · rcases List.mem_cons.mp hx2 with hxy | hxys
        · rw [hxy]
          exact ih y y (List.mem_cons_self y ys)
        · exact ih y x (List.mem_cons.mpr (Or.inr hxys))
    · simp only [hy, if_neg, Bool.not_eq_true]
      rcases List.mem_cons.mp hx with hxc | hx2
      · rw [hxc]
        exact ih c c (List.mem_cons_self c ys)
      · rcases List.mem_cons.mp hx2 with hxy | hxys
        · have hyb : f y c = false := by simpa using hy
          have hcR := ih c c (List.mem_cons_self c ys)
          rw [hxy]
          exact hneg y c _ hyb hcR
        · exact ih c x (List.mem_cons.mpr (Or.inr hxys))

theorem videoBefore_irrefl (a : VideoFormat) : videoBefore a a = false := by
  simp [videoBefore]

theorem videoBefore_trans (a b c : VideoFormat) (h1 : videoBefore a b = true)
    (h2 : videoBefore b c = true) : videoBefore a c = true := by
  simp only [videoBefore, Bool.or_eq_true, Bool.and_eq_true, decide_eq_true_eq,
    beq_iff_eq] at h1 h2 ⊢
  omega

theorem videoBefore_neg_trans (a b c : VideoFormat) (h1 : videoBefore a b = false)
    (h2 : videoBefore b c = false) : videoBefore a c = false := by
  simp only [videoBefore, Bool.or_eq_false_iff, Bool.and_eq_false_iff,
    decide_eq_false_iff_not, not_lt, beq_eq_false_iff_ne, ne_eq] at h1 h2 ⊢
  omega

/-- Not being strictly preceded unpacks to the lexicographic
(height, audio score, size key) comparison. -/
theorem videoBefore_eq_false_iff (f g : VideoFormat) :
    videoBefore f g = false ↔
      (parseHeight f < parseHeight g ∨
        (parseHeight f = parseHeight g ∧
          (audioScore f < audioScore g ∨
            (audioScore f = audioScore g ∧ sizeKey f ≤ sizeKey g)))) := by
  simp only [videoBefore, Bool.or_eq_false_iff, Bool.and_eq_false_iff,
    decide_eq_false_iff_not, not_lt, beq_eq_false_iff_ne, ne_eq]
  omega

/-- The best-audio pick is one of the catalog's formats. -/
theorem pickBestAudioFormat_mem (formats : List VideoFormat) (a : VideoFormat)
    (h : pickBestAudioFormat formats = some a) : a ∈ formats := by
  unfold pickBestAudioFormat at h
  cases hc : (formats.filter (fun f => f.type == FormatType.audio || noUsableVcodec f)).filter
      hasUsableAcodec with
  | nil => rw [hc] at h; exact absurd h (by simp)
  | cons c cs =>
    rw [hc] at h
    simp only [Option.some.injEq] at h
    have hm := pickFold_mem bestAudioBefore cs c
    rw [h] at hm
    rw [← hc] at hm
    have := List.mem_of_mem_filter hm
    exact List.mem_of_mem_filter this

theorem isPrefixOf_append_self : ∀ (l t : List Char), l.isPrefixOf (l ++ t) = true
  | [], _ => by simp [List.isPrefixOf]
  | c :: rest, t => by
    simp only [List.cons_append, List.isPrefixOf, beq_self_eq_true, Bool.true_and]
    exact isPrefixOf_append_self rest t

/-- A list ends with its own appended suffix. -/
theorem isSuffixOf_append_self (a sfx : List Char) : sfx.isSuffixOf (a ++ sfx) = true := by
  unfold List.isSuffixOf
  rw [List.reverse_append]
  exact isPrefixOf_append_self sfx.reverse a.reverse

theorem mem_of_mem_dropWhile {p : Char → Bool} :
    ∀ (l : List Char) (c : Char), c ∈ l.dropWhile p → c ∈ l
  | [], c, h => by simp [List.dropWhile] at h
  | d :: rest, c, h => by
    rw [List.dropWhile_cons] at h
    by_cases hd : p d = true
    · rw [if_pos hd] at h
      exact List.mem_cons.mpr (Or.inr (mem_of_mem_dropWhile rest c h))
    · rw [if_neg hd] at h
      exact h

/-- Trimming only removes characters. -/
theorem mem_of_mem_trimWs (l : List Char) (c : Char) (h : c ∈ trimWs l) : c ∈ l := by
  unfold trimWs at h
  rw [List.mem_reverse] at h
  have h2 := mem_of_mem_dropWhile _ _ h
  rw [List.mem_reverse] at h2
  exact mem_of_mem_dropWhile _ _ h2

/-- Every character surviving whitespace collapsing is a space or a
non-whitespace character of the input. -/
theorem collapseWs_mem :
    ∀ (l : List Char) (c : Char), c ∈ collapseWs l →
      c = ' ' ∨ (c ∈ l ∧ isJsSpace c = false)
  | [], c, h => by simp [collapseWs] at h
  | [d], c, h => by
    by_cases hd : isJsSpace d = true
    · simp only [collapseWs, hd, if_pos, List.mem_singleton] at h
      exact Or.inl h
    · simp only [collapseWs, hd, if_neg, Bool.not_eq_true, List.mem_singleton] at h
      rw [h]
      exact Or.inr ⟨List.mem_singleton_self d, by simpa using hd⟩
  | d :: e :: rest, c, h => by
    by_cases hd : isJsSpace d = true
    · by_cases he : isJsSpace e = true
      · simp only [collapseWs, hd, he, if_pos] at h
        rcases collapseWs_mem (e :: rest) c h with h1 | ⟨h2, h3⟩
        · exact Or.inl h1
        · exact Or.inr ⟨List.mem_cons.mpr (Or.inr h2), h3⟩
      · simp only [collapseWs, hd, he, if_pos, if_neg, Bool.not_eq_true] at h
        rcases List.mem_cons.mp h with h1 | h2
        · exact Or.inl h1
        · rcases collapseWs_mem (e :: rest) c h2 with h1 | ⟨h3, h4⟩
          · exact Or.inl h1
          · exact Or.inr ⟨List.mem_cons.mpr (Or.inr h3), h4⟩
    · simp only [collapseWs, hd, if_neg, Bool.not_eq_true] at h
      rcases List.mem_cons.mp h with h1 | h2
      · rw [h1]
        exact Or.inr ⟨List.mem_cons_self d (e :: rest), by simpa using hd⟩
      · rcases collapseWs_mem (e :: rest) c h2 with h1 | ⟨h3, h4⟩
        · exact Or.inl h1
        · exact Or.inr ⟨List.mem_cons.mpr (Or.inr h3), h4⟩

/-- Every character of a sanitized name is clean. -/
theorem sanitizeName_clean (l : List Char) (c : Char) (h : c ∈ sanitizeName l) :
    cleanChar c = true := by
  unfold sanitizeName at h
  have h2 := mem_of_mem_trimWs _ _ h
  rcases collapseWs_mem _ _ h2 with h3 | ⟨h4, _⟩
  · rw [h3]
    decide
  · have h5 := List.mem_filter.mp h4
    have h6 := List.mem_filter.mp h5.1
    unfold cleanChar
    rw [Bool.and_eq_true]
    exact ⟨h6.2, h5.2⟩

theorem toList_mk (l : List Char) : (String.mk l).toList = l := rfl

/-- Every character of the pre-extension name is clean, provided the
fallback is clean. -/
theorem preExtName_clean (template : Option String) (info : FileInfo)
    (fallback ext : String) (hfb : cleanStr fallback = true) (c : Char)
    (h : c ∈ (preExtName template info fallback ext).toList) : cleanChar c = true := by
  simp only [preExtName] at h
  split at h
  · unfold cleanStr at hfb
    exact List.all_eq_true.mp hfb c h
  · rw [toList_mk] at h
    exact sanitizeName_clean _ _ h

/-- Every character of the normalized extension comes from the extension. -/
theorem safeExtOf_sub (ext : String) (c : Char) (h : c ∈ (safeExtOf ext).toList) :
    c ∈ ext.toList := by
  unfold safeExtOf at h
  split at h
  · rename_i rest heq
    rw [heq]
    exact List.mem_cons.mpr (Or.inr h)
  · exact h

theorem progressOf_nonneg (cl r : Nat) : 0 ≤ progressOf cl r := by
  unfold progressOf
  split
  · exact le_min (by norm_num) (by positivity)
  · refine le_min ?_ ?_
    · split <;> norm_num
    · have h0 : (0 : ℝ) ≤ (r : ℝ) / (1024 * 1024) := by positivity
      have h2 := Real.log_nonneg (by linarith : (1 : ℝ) ≤ (r : ℝ) / (1024 * 1024) + 1)
      nlinarith

theorem progressOf_lt_100 (cl r : Nat) : progressOf cl r < 100 := by
  unfold progressOf
  split
  · exact lt_of_le_of_lt (min_le_left _ _) (by norm_num)
  · refine lt_of_le_of_lt (min_le_left _ _) ?_
    split <;> norm_num

theorem progressOf_mono (cl : Nat) {r s : Nat} (h : r ≤ s) :
    progressOf cl r ≤ progressOf cl s := by
  unfold progressOf
  split
  · rename_i hcl
    refine min_le_min le_rfl ?_
    have hcl2 : (0 : ℝ) < (cl : ℝ) := by exact_mod_cast hcl
    have hrs : (r : ℝ) ≤ (s : ℝ) := by exact_mod_cast h
    gcongr
  · refine min_le_min le_rfl ?_
    have h1 : (0 : ℝ) < (r : ℝ) / (1024 * 1024) + 1 := by positivity
    have h2 : (0 : ℝ) < (s : ℝ) / (1024 * 1024) + 1 := by positivity
    have hrs : (r : ℝ) ≤ (s : ℝ) := by exact_mod_cast h
    have hle : (r : ℝ) / (1024 * 1024) + 1 ≤ (s : ℝ) / (1024 * 1024) + 1 := by gcongr
    have hlog := (Real.log_le_log_iff h1 h2).mpr hle
    nlinarith

theorem totalSize_cons (ch : Chunk) (rest : List Chunk) :
    totalSize (ch :: rest) = ch.size + totalSize rest := by
  simp [totalSize]

/-- Every loop sample carries the fraction computed from its own transferred
count, and its transferred count lies between the running count at loop
entry and that count plus the remaining stream. -/
theorem runLoop_mem (cl : Nat) :
    ∀ (chunks : List Chunk) (received lastUpdate : Nat) (s : Sample),
      s ∈ runLoop cl received lastUpdate chunks →
      s.progress = progressOf cl s.transferred ∧
        received ≤ s.transferred ∧ s.transferred ≤ received + totalSize chunks
  | [], _, _, s, h => by simp [runLoop] at h
  | ch :: rest, received, lastUpdate, s, h => by
    simp only [runLoop] at h
    by_cases ht : 150 < ch.now - lastUpdate
    · rw [if_pos ht] at h
      rcases List.mem_cons.mp h with h1 | h2
      · rw [h1]
        refine ⟨rfl, by dsimp only; omega, ?_⟩
        dsimp only
        rw [totalSize_cons]
        omega
      · have hb := runLoop_mem cl rest (received + ch.size) ch.now s h2
        refine ⟨hb.1, by omega, ?_⟩
        rw [totalSize_cons]
        omega
    · rw [if_neg ht] at h
      have hb := runLoop_mem cl rest (received + ch.size) lastUpdate s h
      refine ⟨hb.1, by omega, ?_⟩
      rw [totalSize_cons]
      omega

/-- The loop samples are non-decreasing in transferred bytes and fraction. -/
theorem runLoop_chain (cl : Nat) :
    ∀ (chunks : List Chunk) (received lastUpdate : Nat),
      List.Chain' sampleLE (runLoop cl received lastUpdate chunks)
  | [], _, _ => by simp [runLoop]
  | ch :: rest, received, lastUpdate => by
    simp only [runLoop]
    by_cases ht : 150 < ch.now - lastUpdate
    · rw [if_pos ht]
      rw [List.chain'_cons']
      refine ⟨?_, runLoop_chain cl rest _ _⟩
      intro y hy
      have hmem := List.mem_of_mem_head? hy
      have hb := runLoop_mem cl rest _ _ y hmem
      refine ⟨hb.2.1, ?_⟩
      rw [hb.1]
      exact progressOf_mono cl hb.2.1
    · rw [if_neg ht]
      exact runLoop_chain cl rest _ _

/-- Mock samples stay between the entry progress and 100. -/
theorem mockSamples_bounds :
    ∀ (incs : List ℚ) (p : ℚ), (∀ i ∈ incs, 0 ≤ i) → p ≤ 100 →
      ∀ q ∈ downloadVideoMockSamples p incs, p ≤ q ∧ q ≤ 100
  | [], _, _, _, q, hq => by simp [downloadVideoMockSamples] at hq
  | inc :: rest, p, hinc, hp, q, hq => by
    have hi : 0 ≤ inc := hinc inc (List.mem_cons_self inc rest)
    simp only [downloadVideoMockSamples] at hq
    by_cases hdone : 100 ≤ p + inc
    · rw [if_pos hdone] at hq
      rw [List.mem_singleton.mp hq]
      exact ⟨hp, le_refl 100⟩
    · rw [if_neg hdone] at hq
      rcases List.mem_cons.mp hq with h1 | h2
      · rw [h1]
        constructor
        · exact le_min (by linarith) hp
        · exact min_le_right _ _
      · have hb := mockSamples_bounds rest (p + inc)
          (fun i hi2 => hinc i (List.mem_cons.mpr (Or.inr hi2))) (by linarith) q h2
        exact ⟨by linarith [hb.1], hb.2⟩

/-- Mock samples are non-decreasing. -/
theorem mockSamples_chain :
    ∀ (incs : List ℚ) (p : ℚ), (∀ i ∈ incs, 0 ≤ i) → p ≤ 100 →
      List.Chain' (fun a b => a ≤ b) (downloadVideoMockSamples p incs)
  | [], _, _, _ => by simp [downloadVideoMockSamples]
  | inc :: rest, p, hinc, hp => by
    have hi : 0 ≤ inc := hinc inc (List.mem_cons_self inc rest)
    simp only [downloadVideoMockSamples]
    by_cases hdone : 100 ≤ p + inc
    · rw [if_pos hdone]
      exact List.chain'_singleton 100
    · rw [if_neg hdone]
      rw [List.chain'_cons']
      have hrest : ∀ i ∈ rest, (0 : ℚ) ≤ i :=
        fun i hi2 => hinc i (List.mem_cons.mpr (Or.inr hi2))
      refine ⟨?_, mockSamples_chain rest (p + inc) hrest (by linarith)⟩
      intro y hy
      have hmem := List.mem_of_mem_head? hy
      have hb := mockSamples_bounds rest (p + inc) hrest (by linarith) y hmem
      exact le_trans (min_le_left _ _) hb.1

/-- All non-terminal mock samples are strictly below 100. -/
theorem mockSamples_dropLast_lt :
    ∀ (incs : List ℚ) (p : ℚ), ∀ q ∈ (downloadVideoMockSamples p incs).dropLast, q < 100
  | [], _, q, hq => by simp [downloadVideoMockSamples] at hq
  | inc :: rest, p, q, hq => by
    simp only [downloadVideoMockSamples] at hq
    by_cases hdone : 100 ≤ p + inc
    · rw [if_pos hdone] at hq
      simp at hq
    · rw [if_neg hdone] at hq
      cases hm : downloadVideoMockSamples (p + inc) rest with
      | nil => rw [hm] at hq; simp at hq
      | cons m ms =>
        rw [hm, List.dropLast_cons₂, List.mem_cons] at hq
        rcases hq with h1 | h2
        · rw [h1]
          exact lt_of_le_of_lt (min_le_left _ _) (by linarith)
        · have := mockSamples_dropLast_lt rest (p + inc) q (by rw [hm]; exact h2)
          exact this

/-- A completing mock run ends with the terminal 100 sample. -/
theorem mockSamples_getLast_complete :
    ∀ (incs : List ℚ) (p : ℚ), mockCompletes p incs = true →
      (downloadVideoMockSamples p incs).getLast? = some 100
  | [], _, h => by simp [mockCompletes] at h
  | inc :: rest, p, h => by
    simp only [mockCompletes] at h
    simp only [downloadVideoMockSamples]
    by_cases hdone : 100 ≤ p + inc
    · rw [if_pos hdone]
      rfl
    · rw [if_neg hdone] at h ⊢
      cases hm : downloadVideoMockSamples (p + inc) rest with
      | nil =>
        have hlast := mockSamples_getLast_complete rest (p + inc) h
        rw [hm] at hlast
        simp at hlast
      | cons m ms =>
        have hlast := mockSamples_getLast_complete rest (p + inc) h
        rw [hm] at hlast
        rw [List.getLast?_cons_cons]
        exact hlast

/-! ## Claim theorems -/

/-- C3 (amended): for a format list with at least one Video-kind entry,
`findRecommendedFormat` picks a Video entry maximal in the lexicographic
order (parsed height, usable-audio presence, known size with `filesize`
over `filesize_approx` and absent sizes as 0) and returns its id — unless
that id is the empty string, in which case it returns `null` (the
`|| null` coercion in the source). -/
theorem claim_C3 (formats : List VideoFormat) (v : VideoFormat) (vs : List VideoFormat)
    (hv : formats.filter (fun f => f.type == FormatType.video) = v :: vs) :
    ∃ best ∈ formats.filter (fun f => f.type == FormatType.video),
      (∀ f ∈ formats.filter (fun f => f.type == FormatType.video),
        parseHeight f < parseHeight best ∨
          (parseHeight f = parseHeight best ∧
            (audioScore f < audioScore best ∨
              (audioScore f = audioScore best ∧ sizeKey f ≤ sizeKey best)))) ∧
      findRecommendedFormat formats =
        (if best.format_id = "" then none else some best.format_id) := by
  refine ⟨sortFirst v vs, ?_, ?_, ?_⟩
  · rw [hv]
    exact pickFold_mem videoBefore vs v
  · intro f hf
    rw [hv] at hf
    have h := pickFold_max videoBefore videoBefore_irrefl videoBefore_trans
      videoBefore_neg_trans vs v f hf
    exact (videoBefore_eq_false_iff f (sortFirst v vs)).mp h
  · cases formats with
    | nil => simp at hv
    | cons f0 rest =>
      unfold findRecommendedFormat
      rw [hv]
      by_cases hid : (sortFirst v vs).format_id = ""
      · simp [sortFirst, hid]
      · simp [sortFirst, hid]

/-- Witness for C3 at a concrete two-video catalog. -/
theorem claim_C3_witness :
    ∃ best ∈ exampleCatalog.filter (fun f => f.type == FormatType.video),
      (∀ f ∈ exampleCatalog.filter (fun f => f.type == FormatType.video),
        parseHeight f < parseHeight best ∨
          (parseHeight f = parseHeight best ∧
            (audioScore f < audioScore best ∨
              (audioScore f = audioScore best ∧ sizeKey f ≤ sizeKey best)))) ∧
      findRecommendedFormat exampleCatalog =
        (if best.format_id = "" then none else some best.format_id) :=
  claim_C3 exampleCatalog exampleVideoA [exampleVideoB] (by decide)

/-- Counterexample to C3 as stated: a catalog containing one Video-kind
entry whose id is the empty string, on which `findRecommendedFormat`
returns `null` instead of the id of the maximal Video entry. -/
theorem claim_C3_counterexample :
    emptyIdVideo.type = FormatType.video ∧
    findRecommendedFormat [emptyIdVideo] = none ∧
    (none : Option String) ≠ some emptyIdVideo.format_id :=
  ⟨rfl, by decide, by decide⟩

/-- C4: with `convertToAudio = false` and a selected id matching a catalog
entry, `buildFormatString` returns the id unchanged when the selected
format has a usable audio codec, and for a video-only selection returns
`{selectedId}+{bestAudioId}` (or `{selectedId}+bestaudio` when no audio
candidate exists). -/
theorem claim_C4 (formats : List VideoFormat) (selectedFormatId : String)
    (sel : VideoFormat)
    (hfind : formats.find? (fun f => f.format_id == selectedFormatId) = some sel) :
    (hasUsableAcodec sel = true →
      buildFormatString formats selectedFormatId false = selectedFormatId) ∧
    (sel.type = FormatType.video → hasUsableAcodec sel = false →
      buildFormatString formats selectedFormatId false =
        (match pickBestAudioFormat formats with
          | some bestAudio => selectedFormatId ++ "+" ++ bestAudio.format_id
          | none => selectedFormatId ++ "+bestaudio")) := by
  have hid : sel.format_id = selectedFormatId := by
    have h := List.find?_some hfind
    simpa using h
  constructor
  · intro hac
    simp [buildFormatString, hfind, hac, hid]
  · intro _ hac
    cases hpb : pickBestAudioFormat formats with
    | none => simp [buildFormatString, hfind, hac, hid, hpb]
    | some bestAudio => simp [buildFormatString, hfind, hac, hid, hpb]

/-- Witness for C4: spec §8 scenario, `v1080+a1`. -/
theorem claim_C4_witness :
    buildFormatString exampleFormats "v1080" false = "v1080" ++ "+" ++ "a1" := by
  have h := (claim_C4 exampleFormats "v1080" exampleVideoOnly (by decide)).2
    (by decide) (by decide)
  rw [h]
  have hpb : pickBestAudioFormat exampleFormats = some exampleAudio := by decide
  rw [hpb]
  rfl

/-- C5: with `convertToAudio = true`, `buildFormatString` returns the
selected id, or the best audio candidate's id, or the literal `bestaudio`
(never a `+`-joined merge expression: any `+` in the result was already
present in the selected id or a catalog id); and when the selected id
matches an Audio-kind catalog entry with a usable codec, the id is
returned unchanged. -/
theorem claim_C5 (formats : List VideoFormat) (selectedFormatId : String) :
    (buildFormatString formats selectedFormatId true = selectedFormatId ∨
      (∃ a, pickBestAudioFormat formats = some a ∧
        buildFormatString formats selectedFormatId true = a.format_id) ∨
      buildFormatString formats selectedFormatId true = "bestaudio") ∧
    (∀ c ∈ (buildFormatString formats selectedFormatId true).toList, c = '+' →
      '+' ∈ selectedFormatId.toList ∨ ∃ f ∈ formats, '+' ∈ f.format_id.toList) ∧
    (∀ sel, formats.find? (fun f => f.format_id == selectedFormatId) = some sel →
      sel.type = FormatType.audio → hasUsableAcodec sel = true →
      buildFormatString formats selectedFormatId true = selectedFormatId) := by
  have hmain : buildFormatString formats selectedFormatId true = selectedFormatId ∨
      (∃ a, pickBestAudioFormat formats = some a ∧
        buildFormatString formats selectedFormatId true = a.format_id) ∨
      buildFormatString formats selectedFormatId true = "bestaudio" := by
    unfold buildFormatString
    cases hfind : formats.find? (fun f => f.format_id == selectedFormatId) with
    | none => exact Or.inl rfl
    | some sel =>
      have hid : sel.format_id = selectedFormatId := by
        have h := List.find?_some hfind
        simpa using h
      by_cases hcond : (sel.type == FormatType.audio && hasUsableAcodec sel) = true
      · simp only [hcond, if_pos]
        exact Or.inl hid
      · simp only [hcond, if_neg, Bool.not_eq_true]
        cases hpb : pickBestAudioFormat formats with
        | none => exact Or.inr (Or.inr rfl)
        | some a => exact Or.inr (Or.inl ⟨a, rfl, rfl⟩)
  refine ⟨hmain, ?_, ?_⟩
  · intro c hc hplus
    rcases hmain with h | ⟨a, hpb, h⟩ | h
    · rw [h] at hc
      rw [hplus] at hc
      exact Or.inl hc
    · rw [h] at hc
      rw [hplus] at hc
      exact Or.inr ⟨a, pickBestAudioFormat_mem formats a hpb, hc⟩
    · rw [h] at hc
      rw [hplus] at hc
      simp at hc
  · intro sel hfind hty hac
    have hid : sel.format_id = selectedFormatId := by
      have h := List.find?_some hfind
      simpa using h
    simp [buildFormatString, hfind, hty, hac, hid]

/-- Witness for C5: spec §8 scenario, `convertToAudio = true` on the
video-only selection substitutes the audio candidate `a1`. -/
theorem claim_C5_witness :
    (buildFormatString exampleFormats "v1080" true = "v1080" ∨
      (∃ a, pickBestAudioFormat exampleFormats = some a ∧
        buildFormatString exampleFormats "v1080" true = a.format_id) ∨
      buildFormatString exampleFormats "v1080" true = "bestaudio") ∧
    buildFormatString exampleFormats "a1" true = "a1" := by
  constructor
  · exact (claim_C5 exampleFormats "v1080").1
  · exact (claim_C5 exampleFormats "a1").2.2 exampleAudio (by decide) (by decide) (by decide)

/-- C7: a network-level failure of the metadata fetch (the `TypeError` that
browser `fetch` raises before any HTTP response) is classified
`backendUnreachable` for every URL, and that classification is distinct
from the `backendError` classification carrying a non-2xx status message. -/
theorem claim_C7 (url : String) (status : Nat) (detail : Option String) :
    classifyFetchError url JsError.typeErrorFetch = FetchError.backendUnreachable ∧
    FetchError.backendUnreachable ≠ FetchError.backendError (httpErrorMessage status detail) := by
  exact ⟨rfl, by intro h; exact FetchError.noConfusion h⟩

/-- Witness for C7 at a concrete URL and status. -/
theorem claim_C7_witness :
    classifyFetchError "http://127.0.0.1:8000/api/info" JsError.typeErrorFetch =
      FetchError.backendUnreachable ∧
    FetchError.backendUnreachable ≠ FetchError.backendError (httpErrorMessage 500 none) :=
  claim_C7 "http://127.0.0.1:8000/api/info" 500 none

/-- Counterexample to C8 as stated: the non-2xx backend failure (not a
normalization throw) of a fetch for a facebook URL is reclassified as the
cookies-guidance error instead of keeping its `backendError`
classification. -/
theorem claim_C8_counterexample :
    classifyFetchError "https://www.facebook.com/watch?v=1"
        (JsError.plainError (httpErrorMessage 500 none)) = FetchError.authRequired ∧
    FetchError.authRequired ≠ FetchError.backendError (httpErrorMessage 500 none) := by
  refine ⟨by decide, by intro h; exact FetchError.noConfusion h⟩

/-- C8 (amended): the cookies-guidance `authRequired` failure is raised iff
the caught error is a plain `Error` (a non-2xx throw or a normalization
throw — not the network `TypeError`, not the timeout abort) and the
lowercased URL contains `facebook.com` or `fb.watch` as a substring
(anywhere in the URL, not only in the host); in particular a non-2xx
`backendError` for such a URL is also reclassified. Timeout and
unreachable keep their classifications for every URL. -/
theorem claim_C8 (url m : String) :
    classifyFetchError url (JsError.plainError m) =
      (if urlMentionsFacebook url then FetchError.authRequired else FetchError.backendError m) ∧
    classifyFetchError url JsError.abortError = FetchError.requestTimeout ∧
    classifyFetchError url JsError.typeErrorFetch = FetchError.backendUnreachable ∧
    (∀ e, classifyFetchError url e = FetchError.authRequired →
      urlMentionsFacebook url = true ∧ ∃ msg, e = JsError.plainError msg) := by
  refine ⟨rfl, rfl, rfl, ?_⟩
  intro e he
  cases e with
  | typeErrorFetch => exact absurd he (by simp [classifyFetchError])
  | abortError => exact absurd he (by simp [classifyFetchError])
  | plainError msg =>
    by_cases hf : urlMentionsFacebook url
    · exact ⟨hf, msg, rfl⟩
    · rw [classifyFetchError, if_neg (by simpa using hf)] at he
      exact absurd he (by simp)

/-- Witness for C8 at a facebook URL and a backend message. -/
theorem claim_C8_witness :
    classifyFetchError "https://fb.watch/abc" (JsError.plainError "boom") =
      (if urlMentionsFacebook "https://fb.watch/abc" then FetchError.authRequired
        else FetchError.backendError "boom") ∧
    classifyFetchError "https://fb.watch/abc" JsError.abortError = FetchError.requestTimeout ∧
    classifyFetchError "https://fb.watch/abc" JsError.typeErrorFetch =
      FetchError.backendUnreachable ∧
    (∀ e, classifyFetchError "https://fb.watch/abc" e = FetchError.authRequired →
      urlMentionsFacebook "https://fb.watch/abc" = true ∧ ∃ msg, e = JsError.plainError msg) :=
  claim_C8 "https://fb.watch/abc" "boom"

/-- C9: for a token-free template, `formatFilename` always produces a name
that ends with `.{extension}` (extension normalized by stripping a leading
dot, compared case-insensitively): the suffix is appended exactly when the
pre-extension name does not already carry it, and never a second time when
it does. -/
theorem claim_C9 (t : String) (info : FileInfo) (fallback ext : String)
    (_hnt : templateTokenFree t = true) :
    jsEndsWith ((formatFilename (some t) info fallback ext).toList.map Char.toLower)
        (('.' :: (safeExtOf ext).toList).map Char.toLower) = true ∧
    (jsEndsWith ((preExtName (some t) info fallback ext).toList.map Char.toLower)
        (('.' :: (safeExtOf ext).toList).map Char.toLower) = true →
      formatFilename (some t) info fallback ext = preExtName (some t) info fallback ext) ∧
    (jsEndsWith ((preExtName (some t) info fallback ext).toList.map Char.toLower)
        (('.' :: (safeExtOf ext).toList).map Char.toLower) = false →
      formatFilename (some t) info fallback ext =
        preExtName (some t) info fallback ext ++ "." ++ safeExtOf ext) := by
  have happend : ∀ name : String,
      jsEndsWith ((name ++ "." ++ safeExtOf ext).toList.map Char.toLower)
        (('.' :: (safeExtOf ext).toList).map Char.toLower) = true := by
    intro name
    unfold jsEndsWith
    have htl : (name ++ "." ++ safeExtOf ext).toList =
        name.toList ++ ('.' :: (safeExtOf ext).toList) := by
      simp [List.append_assoc]
    rw [htl, List.map_append]
    exact isSuffixOf_append_self _ _
  simp only [formatFilename]
  by_cases hend : jsEndsWith
      ((preExtName (some t) info fallback ext).toList.map Char.toLower)
      (('.' :: (safeExtOf ext).toList).map Char.toLower) = true
  · rw [if_pos hend]
    exact ⟨hend, fun _ => rfl, fun hc => Bool.noConfusion (hend.symm.trans hc)⟩
  · rw [if_neg hend]
    refine ⟨happend _, fun hc => absurd hc hend, fun _ => rfl⟩

/-- Witness for C9 at a token-free template and a plain extension. -/
theorem claim_C9_witness :
    jsEndsWith ((formatFilename (some "report") {} "video" "mp4").toList.map Char.toLower)
      (('.' :: (safeExtOf "mp4").toList).map Char.toLower) = true :=
  (claim_C9 "report" {} "video" "mp4" (by decide)).1

/-- Counterexample to C10 as stated: the extension is appended after
sanitization, so an extension containing an illegal character puts that
character into the output. -/
theorem claim_C10_counterexample :
    '/' ∈ (formatFilename (some "x") {} "f" "m/p4").toList := by decide

/-- C10 (amended): provided the fallback base name and the extension are
free of illegal and control characters, the output of `formatFilename`
contains none of `\\ / * ? : " < > |` and no control characters (the
substituted template portion is always sanitized; only the verbatim
fallback and extension need the hypothesis). -/
theorem claim_C10 (template : Option String) (info : FileInfo) (fallback ext : String)
    (hfb : cleanStr fallback = true) (hext : cleanStr ext = true) :
    (formatFilename template info fallback ext).toList.all cleanChar = true := by
  rw [List.all_eq_true]
  intro c hc
  have hse : ∀ d ∈ (safeExtOf ext).toList, cleanChar d = true := by
    intro d hd
    exact List.all_eq_true.mp hext d (safeExtOf_sub ext d hd)
  simp only [formatFilename] at hc
  split at hc
  · exact preExtName_clean template info fallback ext hfb c hc
  · have htl : (preExtName template info fallback ext ++ "." ++ safeExtOf ext).toList =
        (preExtName template info fallback ext).toList ++
          ('.' :: (safeExtOf ext).toList) := by
      simp [List.append_assoc]
    rw [htl] at hc
    rcases List.mem_append.mp hc with h1 | h2
    · exact preExtName_clean template info fallback ext hfb c h1
    · rcases List.mem_cons.mp h2 with h3 | h4
      · rw [h3]
        decide
      · exact hse c h4

/-- Witness for C10 at clean concrete inputs. -/
theorem claim_C10_witness :
    (formatFilename (some "{title} [{resolution}]")
        { title := some "My: Vid?", resolution := some "1080p" }
        "video" "mp4").toList.all cleanChar = true :=
  claim_C10 (some "{title} [{resolution}]")
    { title := some "My: Vid?", resolution := some "1080p" }
    "video" "mp4" (by decide) (by decide)

/-- C1: every sample emitted inside the read loop of the real download
engine (before the stream ends) reports a fraction strictly below 100; with
a known positive resolved total it equals `min(99.9, transferred/total*100)`
and with an unknown total it equals
`min(95, ln(transferredMB + 1) * 12)` where `transferredMB` is
`transferredBytes / 2^20`. -/
theorem claim_C1 (convertToMp3 : Bool) (contentLengthHeader expectedFileSize : Option Nat)
    (startTime : Nat) (chunks : List Chunk) (s : Sample)
    (hs : s ∈ runLoop (resolveContentLength convertToMp3 contentLengthHeader expectedFileSize)
      0 startTime chunks) :
    s.progress < 100 ∧
    (0 < resolveContentLength convertToMp3 contentLengthHeader expectedFileSize →
      s.progress = min 99.9 ((s.transferred : ℝ) /
        (resolveContentLength convertToMp3 contentLengthHeader expectedFileSize : ℝ) * 100)) ∧
    (resolveContentLength convertToMp3 contentLengthHeader expectedFileSize = 0 →
      s.progress = min 95 (Real.log ((s.transferred : ℝ) / 2 ^ 20 + 1) * 12)) := by
  have hb := runLoop_mem _ chunks 0 startTime s hs
  refine ⟨?_, ?_, ?_⟩
  · rw [hb.1]
    exact progressOf_lt_100 _ _
  · intro hcl
    rw [hb.1]
    unfold progressOf
    rw [if_pos hcl]
  · intro hcl
    rw [hb.1]
    unfold progressOf
    rw [if_neg (by omega), hcl]
    norm_num

/-- Witness for C1: one chunk of 500 bytes against a declared length of
1000, read 200ms after the start, produces a sample below 100%. -/
theorem claim_C1_witness :
    progressOf (resolveContentLength false (some 1000) none) 500 < 100 :=
  (claim_C1 false (some 1000) none 0 [⟨500, 200⟩]
    ⟨500, progressOf (resolveContentLength false (some 1000) none) 500⟩
    (by norm_num [runLoop, resolveContentLength])).1

/-- C2: within one invocation, the full sample sequence of the real engine
(initial sample, loop samples, terminal sample) is non-decreasing in
transferred bytes and in fraction, ends with the single terminal 100%
sample, and every earlier sample is strictly below 100%; the simulated
engine's sample sequence is likewise non-decreasing (its randomized
increments are nonnegative), all its non-terminal samples are below 100,
and a completing run ends with a single terminal 100 sample. -/
theorem claim_C2 :
    (∀ (convertToMp3 : Bool) (contentLengthHeader expectedFileSize : Option Nat)
        (startTime : Nat) (chunks : List Chunk),
      List.Chain' sampleLE
        (downloadVideoRealSamples convertToMp3 contentLengthHeader expectedFileSize
          startTime chunks) ∧
      (downloadVideoRealSamples convertToMp3 contentLengthHeader expectedFileSize
          startTime chunks).getLast? = some ⟨totalSize chunks, 100⟩ ∧
      (∀ s ∈ (downloadVideoRealSamples convertToMp3 contentLengthHeader expectedFileSize
          startTime chunks).dropLast, s.progress < 100)) ∧
    (∀ incs : List ℚ, (∀ i ∈ incs, 0 ≤ i) →
      List.Chain' (fun a b => a ≤ b) (downloadVideoMockSamples 0 incs) ∧
      (∀ q ∈ (downloadVideoMockSamples 0 incs).dropLast, q < 100) ∧
      (mockCompletes 0 incs = true →
        (downloadVideoMockSamples 0 incs).getLast? = some 100)) := by
  constructor
  · intro convertToMp3 contentLengthHeader expectedFileSize startTime chunks
    set cl := resolveContentLength convertToMp3 contentLengthHeader expectedFileSize with hcl
    have hloop := runLoop_chain cl chunks 0 startTime
    have hmem := fun s hs => runLoop_mem cl chunks 0 startTime s hs
    refine ⟨?_, ?_, ?_⟩
    · show List.Chain' sampleLE
        (⟨0, 0⟩ :: (runLoop cl 0 startTime chunks ++ [⟨totalSize chunks, 100⟩]))
      rw [List.chain'_cons']
      constructor
      · intro y hy
        have hy2 := List.mem_of_mem_head? hy
        rcases List.mem_append.mp hy2 with h1 | h2
        · have hb := hmem y h1
          refine ⟨Nat.zero_le _, ?_⟩
          rw [hb.1]
          exact progressOf_nonneg cl y.transferred
        · rw [List.mem_singleton.mp h2]
          exact ⟨Nat.zero_le _, by norm_num⟩
      · refine List.Chain'.append hloop (List.chain'_singleton _) ?_
        intro x hx y hy
        have hx2 := List.mem_of_mem_getLast? hx
        have hb := hmem x hx2
        rw [List.head?_cons, Option.mem_some_iff] at hy
        rw [← hy]
        refine ⟨by simpa using hb.2.2, ?_⟩
        rw [hb.1]
        exact le_of_lt (lt_of_lt_of_le (progressOf_lt_100 cl x.transferred) (by norm_num))
    · show (⟨0, 0⟩ :: (runLoop cl 0 startTime chunks ++ [⟨totalSize chunks, 100⟩])).getLast? =
        some ⟨totalSize chunks, 100⟩
      rw [← List.cons_append, List.getLast?_concat]
    · show ∀ s ∈ (⟨0, 0⟩ :: (runLoop cl 0 startTime chunks ++
          [⟨totalSize chunks, 100⟩])).dropLast, s.progress < 100
      rw [← List.cons_append, List.dropLast_concat]
      intro s hs
      rcases List.mem_cons.mp hs with h1 | h2
      · rw [h1]
        norm_num
      · have hb := hmem s h2
        rw [hb.1]
        exact progressOf_lt_100 cl s.transferred
  · intro incs hinc
    exact ⟨mockSamples_chain incs 0 hinc (by norm_num),
      mockSamples_dropLast_lt incs 0,
      mockSamples_getLast_complete incs 0⟩

/-- Witness for C2: a concrete real-engine run and a concrete completing
mock run. -/
theorem claim_C2_witness :
    List.Chain' sampleLE (downloadVideoRealSamples false (some 1000) none 0 [⟨500, 200⟩]) ∧
    List.Chain' (fun a b => a ≤ b) (downloadVideoMockSamples 0 [50, 30, 40]) ∧
    (downloadVideoMockSamples 0 [50, 30, 40]).getLast? = some 100 := by
  have hpos : ∀ i ∈ ([50, 30, 40] : List ℚ), 0 ≤ i := by
    intro i hi
    simp only [List.mem_cons, List.not_mem_nil, or_false] at hi
    rcases hi with rfl | rfl | rfl <;> norm_num
  have hcomp : mockCompletes 0 [50, 30, 40] = true := by
    norm_num [mockCompletes]
  exact ⟨(claim_C2.1 false (some 1000) none 0 [⟨500, 200⟩]).1,
    (claim_C2.2 [50, 30, 40] hpos).1,
    (claim_C2.2 [50, 30, 40] hpos).2.2 hcomp⟩

/-- C6: when converting to audio, the engine takes the supplied size hint as
the resolved total — the `Content-Length` header (present or absent) does
not influence the sample sequence — and a positive hint drives the
known-total progress formula, not the indeterminate curve. -/
theorem claim_C6 (contentLengthHeader : Option Nat) (hint : Nat) (startTime : Nat)
    (chunks : List Chunk) :
    resolveContentLength true contentLengthHeader (some hint) = hint ∧
    downloadVideoRealSamples true contentLengthHeader (some hint) startTime chunks =
      downloadVideoRealSamples true none (some hint) startTime chunks ∧
    (0 < hint →
      ∀ s ∈ runLoop (resolveContentLength true contentLengthHeader (some hint))
        0 startTime chunks,
      s.progress = min 99.9 ((s.transferred : ℝ) / (hint : ℝ) * 100)) := by
  have hres : resolveContentLength true contentLengthHeader (some hint) = hint := by
    simp [resolveContentLength]
  refine ⟨hres, ?_, ?_⟩
  · simp [downloadVideoRealSamples, resolveContentLength]
  · intro hpos s hs
    have hb := runLoop_mem _ chunks 0 startTime s hs
    rw [hb.1, hres]
    unfold progressOf
    rw [if_pos hpos]

/-- Witness for C6: absent `Content-Length`, `convertToAudio = true`, hint
5,000,000 — the hint becomes the total and the known-total formula is
used. -/
theorem claim_C6_witness :
    resolveContentLength true none (some 5000000) = 5000000 ∧
    (Sample.mk 500 (progressOf (resolveContentLength true none (some 5000000)) 500)).progress =
      min 99.9 ((500 : ℝ) / (5000000 : ℝ) * 100) := by
  have h := claim_C6 none 5000000 0 [⟨500, 200⟩]
  refine ⟨h.1, ?_⟩
  have h2 := h.2.2 (by norm_num)
    ⟨500, progressOf (resolveContentLength true none (some 5000000)) 500⟩
    (by norm_num [runLoop, resolveContentLength])
  simpa using h2

end Kroma
